import Mathlib

/-!
TensorShape (onnxruntime/core/framework/tensor_shape.cc)

A shallow embedding of `onnxruntime::TensorShape` and a verification of its
size and slicing arithmetic and of its textual rendering, together with the
rendering of the symbolic shape descriptor.

* A shape is the sequence of its extents (`std::vector<int64_t>`), here a list of
  integers; `TensorShape.WF` says that every extent is a signed 64-bit value.
* `size_t` arguments are natural numbers.
* `int64_t` multiplication is the exact product reduced modulo `2^64` into the
  signed 64-bit range (`mulInt64`).
* A call either returns a value or ends in a `Fault`: the exception thrown by
  `ONNXRUNTIME_ENFORCE`, or an access outside the vector (undefined behaviour in
  the source, made explicit here so that its absence can be proved).
* `std::string` is `String`, and `std::to_string` on an extent is its decimal text.
-/

namespace onnxruntime

/-! ## Machine integers -/

/-- Smallest `int64_t`. -/
def INT64_MIN : Int := -(2 ^ 63)

/-- Largest `int64_t`. -/
def INT64_MAX : Int := 2 ^ 63 - 1

/-- The integer `x` is representable as an `int64_t`. -/
def isInt64 (x : Int) : Prop := INT64_MIN ≤ x ∧ x ≤ INT64_MAX

instance (x : Int) : Decidable (isInt64 x) := by
  unfold isInt64; exact inferInstance

/-- Reduction of an exact integer modulo `2^64` into the signed 64-bit range. -/
def wrapInt64 (x : Int) : Int := (x + 2 ^ 63) % 2 ^ 64 - 2 ^ 63

/-- The `int64_t` multiplication of the source (`size *= (*this)[i]`), unchecked:
the exact product wrapped into the signed 64-bit range. -/
def mulInt64 (a b : Int) : Int := wrapInt64 (a * b)

/-! ## Outcomes -/

/-- The ways a call can end without a value. -/
inductive Fault where
  /-- The exception thrown by a failed `ONNXRUNTIME_ENFORCE`, with its message. -/
  | InvalidArgument (msg : String)
  /-- An access outside the bounds of the vector (undefined behaviour in C++). -/
  | OutOfBounds
  deriving DecidableEq, Repr

deriving instance DecidableEq for Except

/-- Modelled from the spec: the macro `ONNXRUNTIME_ENFORCE` of `core/common/common.h`,
which is not part of the sources at hand. The spec describes a violated condition as an
Invalid-Argument contract violation raised at the point of the call: when the condition
is false the call ends there with the diagnostic, otherwise execution continues. -/
def ONNXRUNTIME_ENFORCE (condition : Bool) (msg : String) : Except Fault Unit :=
  if condition then .ok () else .error (.InvalidArgument msg)

/-! ## The shape type -/

/-- A tensor shape: the vector of its extents (`TensorShape` derives from
`std::vector<int64_t>`). -/
structure TensorShape where
  /-- The extents, in order. -/
  dims : List Int
  deriving DecidableEq, Repr

namespace TensorShape

/-- Every extent is an `int64_t`. -/
def WF (s : TensorShape) : Prop := ∀ x ∈ s.dims, isInt64 x

instance (s : TensorShape) : Decidable (WF s) := by
  unfold WF; exact inferInstance

/-- The rank, `std::vector::size()`. -/
def size (s : TensorShape) : Nat := s.dims.length

/-- The constructor `TensorShape(const std::vector<int64_t>& dims, size_t start, size_t end)`:
`assign(dims.begin() + start, dims.begin() + end)`. The iterator range is only valid for
`start ≤ end ≤ dims.size()`; the constructor does not check it, and outside that range the
behaviour is undefined. -/
def ofRange (dims : List Int) (start end_ : Nat) : Except Fault TensorShape :=
  if start ≤ end_ ∧ end_ ≤ dims.length then
    .ok ⟨(dims.drop start).take (end_ - start)⟩
  else
    .error .OutOfBounds

/-- The loop of `SizeHelper`, `for (size_t i = start; i < end; i++)`, with `n = end - i`
iterations left to run, at index `i` with the accumulator `size`. Each iteration reads
`(*this)[i]`, returns `-1` if it is negative and multiplies it into `size` otherwise. -/
def SizeHelper.loop (s : TensorShape) : Nat → Nat → Int → Except Fault Int
  | 0, _, size => .ok size
  | n + 1, i, size =>
    match s.dims[i]? with
    | none => .error .OutOfBounds
    | some d => if d < 0 then .ok (-1) else SizeHelper.loop s n (i + 1) (mulInt64 size d)

/-- `TensorShape::SizeHelper(size_t start, size_t end)`: starts from `size = 1` and runs
the loop from `i = start` while `i < end`. -/
def SizeHelper (s : TensorShape) (start end_ : Nat) : Except Fault Int :=
  SizeHelper.loop s (end_ - start) start 1

/-- `TensorShape::Size()`. -/
def Size (s : TensorShape) : Except Fault Int :=
  let arraySize := s.size
  s.SizeHelper 0 arraySize

/-- `TensorShape::SizeToDimension(size_t dimension)`. -/
def SizeToDimension (s : TensorShape) (dimension : Nat) : Except Fault Int := do
  let num_dims := s.size
  ONNXRUNTIME_ENFORCE (decide (dimension ≤ num_dims))
    ("Invalid dimension of " ++ toString dimension ++ " for SizeFromDimension. Tensor has "
      ++ toString num_dims ++ " dimensions.")
  s.SizeHelper 0 dimension

/-- `TensorShape::SizeFromDimension(size_t dimension)`. -/
def SizeFromDimension (s : TensorShape) (dimension : Nat) : Except Fault Int := do
  let num_dims := s.size
  ONNXRUNTIME_ENFORCE (decide (dimension ≤ num_dims))
    ("Invalid dimension of " ++ toString dimension ++ " for SizeFromDimension. Tensor has "
      ++ toString num_dims ++ " dimensions.")
  s.SizeHelper dimension num_dims

/-- `TensorShape::Slice(size_t dimstart, size_t dimend)`. -/
def Slice (s : TensorShape) (dimstart dimend : Nat) : Except Fault TensorShape := do
  ONNXRUNTIME_ENFORCE (decide (dimstart ≤ dimend ∧ dimend ≤ s.size))
    "Invalid tensor shape slice argument."
  ofRange s.dims dimstart dimend

/-- `TensorShape::Slice(size_t dimstart)`. -/
def SliceFrom (s : TensorShape) (dimstart : Nat) : Except Fault TensorShape :=
  s.Slice dimstart s.size

/-- The reference scan of the design notes of the spec, which does not stop early: it visits
every extent of the range `[start, end)`, multiplying each into the 64-bit product and
recording whether a negative one was met, and only then returns `-1` if one was met and the
product otherwise. -/
def SizeHelperFullScan (s : TensorShape) (start end_ : Nat) : Int :=
  let range := (s.dims.drop start).take (end_ - start)
  let scan := range.foldl
    (fun (acc : Int × Bool) d => (mulInt64 acc.1 d, acc.2 || decide (d < 0))) (1, false)
  if scan.2 then -1 else scan.1

end TensorShape

/-! ## Text -/

/-- `std::to_string(long long)` of the C++ standard library, which `ToString` calls on every
extent: the decimal digits of the magnitude, after a `-` when the value is negative. -/
def std.to_string (value : Int) : String :=
  if value < 0 then "-" ++ Nat.repr value.natAbs else Nat.repr value.toNat

/-- The number that a text of decimal digits denotes, most significant digit first. -/
def decimalValue (digits : List Char) : Nat :=
  digits.foldl (fun acc c => 10 * acc + (c.toNat - '0'.toNat)) 0

namespace TensorShape

/-- The loop of `ToString`, `for (auto dim : (*this))`, over the extents still to be
visited, with the text built so far and the flag `first`. -/
def ToString.loop : List Int → String → Bool → String
  | [], result, _ => result
  | dim :: rest, result, first =>
    let result := if !first then result ++ "," else result
    let result := result ++ std.to_string dim
    ToString.loop rest result false

/-- `TensorShape::ToString()`. -/
def ToString (s : TensorShape) : String :=
  let result := ""
  let result := result ++ "\x7b"
  let first := true
  let result := ToString.loop s.dims result first
  result ++ "\x7d"

end TensorShape

/-! ## The symbolic shape descriptor -/

/-- Modelled from the spec: one entry of the symbolic shape descriptor, the type
`TensorShapeProto::Dimension` of the onnx protobuf, which is not part of the sources at hand.
The spec describes an entry as holding either a concrete integer value or a named symbolic
parameter; the third case is the entry for which both `has_dim_value()` and `has_dim_param()`
are false, which the `if / else if` of the source leaves room for. -/
inductive TensorShapeProto.Dimension where
  /-- A concrete extent. -/
  | value (v : Int)
  /-- A named symbolic parameter. -/
  | param (name : String)
  /-- Neither is set. -/
  | notSet
  deriving DecidableEq, Repr

namespace TensorShapeProto.Dimension

/-- The accessor `has_dim_value()`. -/
def has_dim_value : Dimension → Bool
  | value _ => true
  | _ => false

/-- The accessor `has_dim_param()`. -/
def has_dim_param : Dimension → Bool
  | param _ => true
  | _ => false

/-- The accessor `dim_value()`; the protobuf default `0` when no value is set. -/
def dim_value : Dimension → Int
  | value v => v
  | _ => 0

/-- The accessor `dim_param()`; the protobuf default, the empty string, when no parameter
is set. -/
def dim_param : Dimension → String
  | param name => name
  | _ => ""

end TensorShapeProto.Dimension

/-- Modelled from the spec: the symbolic shape descriptor `TensorShapeProto` of the onnx
protobuf, not part of the sources at hand: an ordered sequence of entries, read through
`dim()`. -/
structure TensorShapeProto where
  /-- The entries, in order. -/
  dim : List TensorShapeProto.Dimension
  deriving DecidableEq, Repr

/-- The loop of the descriptor printer, `for (auto& dim : shape_proto.dim())`, over the
entries still to be visited, with the text built so far and the flag `first`. -/
def TensorShapeProto.print.loop : List TensorShapeProto.Dimension → String → Bool → String
  | [], result, _ => result
  | dim :: rest, result, first =>
    let result := if !first then result ++ "," else result
    let result :=
      if dim.has_dim_value then result ++ std.to_string dim.dim_value
      else if dim.has_dim_param then result ++ dim.dim_param
      else result
    TensorShapeProto.print.loop rest result false

/-- `operator<<(std::ostream& out, const TensorShapeProto& shape_proto)`: the text `result`
that the operator builds and inserts into the stream. -/
def TensorShapeProto.print (shape_proto : TensorShapeProto) : String :=
  let result := ""
  let result := result ++ "\x7b"
  let first := true
  let result := TensorShapeProto.print.loop shape_proto.dim result first
  result ++ "\x7d"

end onnxruntime

namespace onnxruntime

/-! ## Arithmetic of the wrapped product -/

theorem wrapInt64_emod (x : Int) : wrapInt64 x % 2 ^ 64 = x % 2 ^ 64 := by
  unfold wrapInt64
  omega

theorem wrapInt64_congr {x y : Int} (h : x % 2 ^ 64 = y % 2 ^ 64) : wrapInt64 x = wrapInt64 y := by
  unfold wrapInt64
  omega

theorem wrapInt64_isInt64 (x : Int) : isInt64 (wrapInt64 x) := by
  unfold isInt64 INT64_MIN INT64_MAX wrapInt64
  omega

theorem wrapInt64_of_isInt64 {x : Int} (h : isInt64 x) : wrapInt64 x = x := by
  unfold isInt64 INT64_MIN INT64_MAX at h
  unfold wrapInt64
  omega

theorem wrapInt64_idem (x : Int) : wrapInt64 (wrapInt64 x) = wrapInt64 x :=
  wrapInt64_of_isInt64 (wrapInt64_isInt64 x)

theorem wrapInt64_mul_left (a b : Int) : wrapInt64 (wrapInt64 a * b) = wrapInt64 (a * b) := by
  apply wrapInt64_congr
  rw [Int.mul_emod, wrapInt64_emod, ← Int.mul_emod]

theorem wrapInt64_mul_right (a b : Int) : wrapInt64 (a * wrapInt64 b) = wrapInt64 (a * b) := by
  rw [Int.mul_comm, wrapInt64_mul_left, Int.mul_comm]

theorem wrapInt64_eq_neg_one_iff (x : Int) : wrapInt64 x = -1 ↔ x % 2 ^ 64 = 2 ^ 64 - 1 := by
  unfold wrapInt64
  omega

namespace TensorShape

/-! ## The loop of `SizeHelper` -/

theorem segment_succ (dims : List Int) (i n : Nat) (h : i < dims.length) :
    (dims.drop i).take (n + 1) = dims[i] :: (dims.drop (i + 1)).take n := by
  rw [List.drop_eq_getElem_cons h, List.take_succ_cons]

/-- Over a range inside the vector with no negative extent, the loop multiplies the
accumulator by every extent of the range. -/
theorem loop_of_nonneg (s : TensorShape) :
    ∀ (n i : Nat) (acc : Int), i + n ≤ s.dims.length →
      (∀ x ∈ (s.dims.drop i).take n, 0 ≤ x) → wrapInt64 acc = acc →
      SizeHelper.loop s n i acc = .ok (wrapInt64 (acc * ((s.dims.drop i).take n).prod)) := by
  intro n
  induction n with
  | zero => intro i acc _ _ hacc; simp [SizeHelper.loop, hacc]
  | succ n ih =>
    intro i acc hb hnn _
    have hi : i < s.dims.length := by omega
    rw [segment_succ _ _ _ hi] at hnn ⊢
    have h0 : 0 ≤ s.dims[i] := hnn _ (List.mem_cons_self _ _)
    have hrest : ∀ x ∈ (s.dims.drop (i + 1)).take n, 0 ≤ x :=
      fun x hx => hnn x (List.mem_cons_of_mem _ hx)
    simp only [SizeHelper.loop, List.getElem?_eq_getElem hi, not_lt.mpr h0, if_false]
    rw [ih (i + 1) (mulInt64 acc s.dims[i]) (by omega) hrest (wrapInt64_idem _)]
    simp only [mulInt64, List.prod_cons, wrapInt64_mul_left, Int.mul_assoc]

/-- Over a range inside the vector that holds a negative extent, the loop returns `-1`. -/
theorem loop_of_neg (s : TensorShape) :
    ∀ (n i : Nat) (acc : Int), i + n ≤ s.dims.length →
      (∃ x ∈ (s.dims.drop i).take n, x < 0) →
      SizeHelper.loop s n i acc = .ok (-1) := by
  intro n
  induction n with
  | zero => intro i acc _ h; simp at h
  | succ n ih =>
    intro i acc hb hneg
    have hi : i < s.dims.length := by omega
    rw [segment_succ _ _ _ hi] at hneg
    simp only [SizeHelper.loop, List.getElem?_eq_getElem hi]
    by_cases h0 : s.dims[i] < 0
    · simp [h0]
    · simp only [h0, if_false]
      apply ih (i + 1) _ (by omega)
      obtain ⟨x, hx, hlt⟩ := hneg
      rcases List.mem_cons.mp hx with rfl | hx
      · exact absurd hlt h0
      · exact ⟨x, hx, hlt⟩

/-- Inside the vector the loop always returns a value. -/
theorem loop_ok (s : TensorShape) (n i : Nat) (acc : Int) (hb : i + n ≤ s.dims.length)
    (hacc : wrapInt64 acc = acc) :
    SizeHelper.loop s n i acc =
      .ok (if ∃ x ∈ (s.dims.drop i).take n, x < 0 then -1
           else wrapInt64 (acc * ((s.dims.drop i).take n).prod)) := by
  split
  · next h => exact loop_of_neg s n i acc hb h
  · next h =>
    apply loop_of_nonneg s n i acc hb _ hacc
    intro x hx
    by_contra hlt
    exact h ⟨x, hx, not_le.mp hlt⟩

/-! ## Index form of membership in a prefix or a suffix -/

theorem mem_take_iff_index (l : List Int) (d : Nat) (x : Int) :
    x ∈ l.take d ↔ ∃ i, ∃ h : i < l.length, i < d ∧ l[i] = x := by
  rw [List.mem_take_iff_getElem]
  constructor
  · rintro ⟨i, hi, rfl⟩
    exact ⟨i, by omega, by omega, rfl⟩
  · rintro ⟨i, h, hd, rfl⟩
    exact ⟨i, by omega, rfl⟩

theorem mem_drop_iff_index (l : List Int) (d : Nat) (x : Int) :
    x ∈ l.drop d ↔ ∃ i, ∃ h : i < l.length, d ≤ i ∧ l[i] = x := by
  rw [List.mem_drop_iff_getElem]
  constructor
  · rintro ⟨i, hi, rfl⟩
    exact ⟨d + i, by omega, by omega, rfl⟩
  · rintro ⟨i, h, hd, rfl⟩
    refine ⟨i - d, by omega, ?_⟩
    congr 1; omega

/-! ## The helper and its three callers -/

/-- On a range inside the vector `SizeHelper` returns a value: `-1` if the range holds a
negative extent, the wrapped product of the range otherwise. -/
theorem SizeHelper_ok (s : TensorShape) (start end_ : Nat) (h1 : start ≤ end_)
    (h2 : end_ ≤ s.dims.length) :
    s.SizeHelper start end_ =
      .ok (if ∃ x ∈ (s.dims.drop start).take (end_ - start), x < 0 then -1
           else wrapInt64 ((s.dims.drop start).take (end_ - start)).prod) := by
  unfold SizeHelper
  rw [loop_ok s (end_ - start) start 1 (by omega) (by decide), Int.one_mul]

theorem Size_ok (s : TensorShape) :
    s.Size = .ok (if ∃ x ∈ s.dims, x < 0 then -1 else wrapInt64 s.dims.prod) := by
  have h := SizeHelper_ok s 0 s.dims.length (Nat.zero_le _) (Nat.le_refl _)
  simpa [Size, size] using h

theorem SizeToDimension_of_le (s : TensorShape) (d : Nat) (hd : d ≤ s.size) :
    s.SizeToDimension d = s.SizeHelper 0 d := by
  simp only [SizeToDimension, ONNXRUNTIME_ENFORCE, hd, decide_True, if_true]
  rfl

theorem SizeFromDimension_of_le (s : TensorShape) (d : Nat) (hd : d ≤ s.size) :
    s.SizeFromDimension d = s.SizeHelper d s.size := by
  simp only [SizeFromDimension, ONNXRUNTIME_ENFORCE, hd, decide_True, if_true]
  rfl

theorem SizeToDimension_of_gt (s : TensorShape) (d : Nat) (hd : s.size < d) :
    s.SizeToDimension d = .error (.InvalidArgument
      ("Invalid dimension of " ++ toString d ++ " for SizeFromDimension. Tensor has "
        ++ toString s.size ++ " dimensions.")) := by
  simp only [SizeToDimension, ONNXRUNTIME_ENFORCE, not_le.mpr hd, decide_False]
  rfl

theorem SizeFromDimension_of_gt (s : TensorShape) (d : Nat) (hd : s.size < d) :
    s.SizeFromDimension d = .error (.InvalidArgument
      ("Invalid dimension of " ++ toString d ++ " for SizeFromDimension. Tensor has "
        ++ toString s.size ++ " dimensions.")) := by
  simp only [SizeFromDimension, ONNXRUNTIME_ENFORCE, not_le.mpr hd, decide_False]
  rfl

theorem SizeToDimension_ok (s : TensorShape) (d : Nat) (hd : d ≤ s.size) :
    s.SizeToDimension d =
      .ok (if ∃ x ∈ s.dims.take d, x < 0 then -1 else wrapInt64 (s.dims.take d).prod) := by
  rw [SizeToDimension_of_le s d hd, SizeHelper_ok s 0 d (Nat.zero_le _) hd]
  simp

theorem SizeFromDimension_ok (s : TensorShape) (d : Nat) (hd : d ≤ s.size) :
    s.SizeFromDimension d =
      .ok (if ∃ x ∈ s.dims.drop d, x < 0 then -1 else wrapInt64 (s.dims.drop d).prod) := by
  rw [SizeFromDimension_of_le s d hd, SizeHelper_ok s d s.size hd (Nat.le_refl _)]
  have : (s.dims.drop d).take (s.size - d) = s.dims.drop d :=
    List.take_of_length_le (by simp [size])
  rw [this]

/-! ## Total size -/

/-- Claim C1: for every shape none of whose extents is negative, `Size()` returns a value
(no fault), and that value is the exact product of all extents reduced modulo `2^64` into the
signed 64-bit range. -/
theorem Size_eq_wrapped_product (s : TensorShape) (h : ∀ x ∈ s.dims, 0 ≤ x) :
    s.Size = .ok (wrapInt64 s.dims.prod) ∧
      isInt64 (wrapInt64 s.dims.prod) ∧
      wrapInt64 s.dims.prod % 2 ^ 64 = s.dims.prod % 2 ^ 64 := by
  refine ⟨?_, wrapInt64_isInt64 _, wrapInt64_emod _⟩
  rw [Size_ok, if_neg]
  rintro ⟨x, hx, hlt⟩
  exact absurd (h x hx) (not_le.mpr hlt)

/-- The scenario of the spec, `Shape([2,3,4]).Size() == 24`, as an instance of C1. -/
theorem Size_eq_wrapped_product_witness :
    (∀ x ∈ (TensorShape.mk [2, 3, 4]).dims, 0 ≤ x) ∧
      (TensorShape.mk [2, 3, 4]).Size = .ok 24 :=
  ⟨by decide, (Size_eq_wrapped_product ⟨[2, 3, 4]⟩ (by decide)).1⟩

/-- Claim C2: if at least one extent of a shape is negative, at any position, then `Size()`
returns `-1`. -/
theorem Size_eq_neg_one_of_negative (s : TensorShape) (h : ∃ x ∈ s.dims, x < 0) :
    s.Size = .ok (-1) := by
  rw [Size_ok, if_pos h]

/-- An instance of C2 where the negative extent comes after a running product that has
overflowed and after a zero extent. -/
theorem Size_eq_neg_one_of_negative_witness :
    (∃ x ∈ (TensorShape.mk [4294967296, 4294967296, 0, -7]).dims, x < 0) ∧
      (TensorShape.mk [4294967296, 4294967296, 0, -7]).Size = .ok (-1) :=
  ⟨by decide, Size_eq_neg_one_of_negative ⟨[4294967296, 4294967296, 0, -7]⟩ (by decide)⟩

/-- Claim C3 fails as stated: the shape `[2^32 - 1, 2^32 + 1]` has two non-negative 64-bit
extents whose exact product is `2^64 - 1`, which the 64-bit multiplication wraps to `-1`. -/
theorem Size_neg_one_without_negative_extent :
    (TensorShape.mk [4294967295, 4294967297]).WF ∧
      (TensorShape.mk [4294967295, 4294967297]).Size = .ok (-1) ∧
      ¬ ∃ x ∈ (TensorShape.mk [4294967295, 4294967297]).dims, x < 0 := by
  decide

/-- Claim C3, amended: if `Size()` returns `-1` then some extent is negative, or no extent is
negative and the exact product of the extents is congruent to `-1` modulo `2^64`; so whenever
the exact product of the extents fits in a signed 64-bit integer, `-1` means that some extent
is negative. -/
theorem Size_neg_one_cause (s : TensorShape) (h : s.Size = .ok (-1)) :
    ((∃ x ∈ s.dims, x < 0) ∨
        ((∀ x ∈ s.dims, 0 ≤ x) ∧ s.dims.prod % 2 ^ 64 = 2 ^ 64 - 1)) ∧
      (isInt64 s.dims.prod → ∃ x ∈ s.dims, x < 0) := by
  by_cases hneg : ∃ x ∈ s.dims, x < 0
  · exact ⟨Or.inl hneg, fun _ => hneg⟩
  · have hnn : ∀ x ∈ s.dims, 0 ≤ x := by
      intro x hx
      by_contra hlt
      exact hneg ⟨x, hx, not_le.mp hlt⟩
    rw [Size_ok, if_neg hneg] at h
    have hw : wrapInt64 s.dims.prod = -1 := Except.ok.inj h
    have hmod := (wrapInt64_eq_neg_one_iff _).mp hw
    refine ⟨Or.inr ⟨hnn, hmod⟩, ?_⟩
    intro hfit
    exfalso
    have hp : 0 ≤ s.dims.prod := List.prod_nonneg hnn
    unfold isInt64 INT64_MIN INT64_MAX at hfit
    omega

/-- An instance of the amended C3: `[2,-1,4]` has size `-1`, its exact product `-8` fits in
64 bits, and it has a negative extent. -/
theorem Size_neg_one_cause_witness :
    (TensorShape.mk [2, -1, 4]).Size = .ok (-1) ∧
      isInt64 (TensorShape.mk [2, -1, 4]).dims.prod ∧
      ∃ x ∈ (TensorShape.mk [2, -1, 4]).dims, x < 0 :=
  ⟨by decide, by decide,
    (Size_neg_one_cause ⟨[2, -1, 4]⟩ (by decide)).2 (by decide)⟩

/-! ## Partial sizes -/

/-- Claim C4: for `d ≤ rank`, if no extent at an index in `[0, d)` is negative then
`SizeToDimension(d)` returns the wrapped product of the extents at indices `[0, d)`, and if
no extent at an index in `[d, rank)` is negative then `SizeFromDimension(d)` returns the
wrapped product of the extents at indices `[d, rank)`. -/
theorem partial_size_eq_wrapped_product (s : TensorShape) (d : Nat) (hd : d ≤ s.size) :
    ((∀ i, ∀ h : i < s.dims.length, i < d → 0 ≤ s.dims[i]) →
        s.SizeToDimension d = .ok (wrapInt64 (s.dims.take d).prod)) ∧
      ((∀ i, ∀ h : i < s.dims.length, d ≤ i → 0 ≤ s.dims[i]) →
        s.SizeFromDimension d = .ok (wrapInt64 (s.dims.drop d).prod)) := by
  constructor
  · intro hnn
    rw [SizeToDimension_ok s d hd, if_neg]
    rintro ⟨x, hx, hlt⟩
    obtain ⟨i, h, hid, rfl⟩ := (mem_take_iff_index _ _ _).mp hx
    exact absurd (hnn i h hid) (not_le.mpr hlt)
  · intro hnn
    rw [SizeFromDimension_ok s d hd, if_neg]
    rintro ⟨x, hx, hlt⟩
    obtain ⟨i, h, hid, rfl⟩ := (mem_drop_iff_index _ _ _).mp hx
    exact absurd (hnn i h hid) (not_le.mpr hlt)

/-- The scenario of the spec, `Shape([2,-1,4]).SizeToDimension(1) == 2`, and the matching
suffix `Shape([2,-1,4]).SizeFromDimension(2) == 4`, as instances of C4. -/
theorem partial_size_eq_wrapped_product_witness :
    (TensorShape.mk [2, -1, 4]).SizeToDimension 1 = .ok 2 ∧
      (TensorShape.mk [2, -1, 4]).SizeFromDimension 2 = .ok 4 :=
  ⟨(partial_size_eq_wrapped_product ⟨[2, -1, 4]⟩ 1 (by decide)).1 (by decide),
    (partial_size_eq_wrapped_product ⟨[2, -1, 4]⟩ 2 (by decide)).2 (by decide)⟩

/-- Claim C5, the product splitting law: for a shape with no negative extent and `d ≤ rank`,
the three size queries return values, and the 64-bit product of `SizeToDimension(d)` and
`SizeFromDimension(d)` is `Size()`. -/
theorem product_splitting (s : TensorShape) (d : Nat) (hnn : ∀ x ∈ s.dims, 0 ≤ x)
    (hd : d ≤ s.size) :
    ∃ a b c, s.SizeToDimension d = .ok a ∧ s.SizeFromDimension d = .ok b ∧
      s.Size = .ok c ∧ mulInt64 a b = c := by
  have hto : ¬ ∃ x ∈ s.dims.take d, x < 0 := by
    rintro ⟨x, hx, hlt⟩
    exact absurd (hnn x (List.mem_of_mem_take hx)) (not_le.mpr hlt)
  have hfrom : ¬ ∃ x ∈ s.dims.drop d, x < 0 := by
    rintro ⟨x, hx, hlt⟩
    exact absurd (hnn x (List.mem_of_mem_drop hx)) (not_le.mpr hlt)
  have hall : ¬ ∃ x ∈ s.dims, x < 0 := by
    rintro ⟨x, hx, hlt⟩
    exact absurd (hnn x hx) (not_le.mpr hlt)
  refine ⟨wrapInt64 (s.dims.take d).prod, wrapInt64 (s.dims.drop d).prod,
    wrapInt64 s.dims.prod, ?_, ?_, ?_, ?_⟩
  · rw [SizeToDimension_ok s d hd, if_neg hto]
  · rw [SizeFromDimension_ok s d hd, if_neg hfrom]
  · rw [Size_ok, if_neg hall]
  · unfold mulInt64
    rw [wrapInt64_mul_left, wrapInt64_mul_right, ← List.prod_append, List.take_append_drop]

/-- An instance of C5: `[2,3,4]` split at `1` gives `2 * 12 = 24`. -/
theorem product_splitting_witness :
    (∀ x ∈ (TensorShape.mk [2, 3, 4]).dims, 0 ≤ x) ∧ 1 ≤ (TensorShape.mk [2, 3, 4]).size ∧
      ∃ a b c, (TensorShape.mk [2, 3, 4]).SizeToDimension 1 = .ok a ∧
        (TensorShape.mk [2, 3, 4]).SizeFromDimension 1 = .ok b ∧
        (TensorShape.mk [2, 3, 4]).Size = .ok c ∧ mulInt64 a b = c :=
  ⟨by decide, by decide, product_splitting ⟨[2, 3, 4]⟩ 1 (by decide) (by decide)⟩

/-- Claim C6: for `d ≤ rank`, `SizeToDimension(d)` returns `-1` whenever some extent at an
index in `[0, d)` is negative, and `SizeFromDimension(d)` returns `-1` whenever some extent
at an index in `[d, rank)` is negative, whatever the extents outside that range. -/
theorem partial_size_eq_neg_one (s : TensorShape) (d : Nat) (hd : d ≤ s.size) :
    ((∃ i, ∃ h : i < s.dims.length, i < d ∧ s.dims[i] < 0) →
        s.SizeToDimension d = .ok (-1)) ∧
      ((∃ i, ∃ h : i < s.dims.length, d ≤ i ∧ s.dims[i] < 0) →
        s.SizeFromDimension d = .ok (-1)) := by
  constructor
  · rintro ⟨i, h, hid, hlt⟩
    rw [SizeToDimension_ok s d hd, if_pos]
    exact ⟨s.dims[i], (mem_take_iff_index _ _ _).mpr ⟨i, h, hid, rfl⟩, hlt⟩
  · rintro ⟨i, h, hid, hlt⟩
    rw [SizeFromDimension_ok s d hd, if_pos]
    exact ⟨s.dims[i], (mem_drop_iff_index _ _ _).mpr ⟨i, h, hid, rfl⟩, hlt⟩

/-- The scenario of the spec as instances of C6: `Shape([2,-1,4]).SizeFromDimension(1) == -1`
and `Shape([2,-1,4]).SizeToDimension(2) == -1`, while `SizeToDimension(1) == 2`. -/
theorem partial_size_eq_neg_one_witness :
    (TensorShape.mk [2, -1, 4]).SizeFromDimension 1 = .ok (-1) ∧
      (TensorShape.mk [2, -1, 4]).SizeToDimension 2 = .ok (-1) ∧
      (TensorShape.mk [2, -1, 4]).SizeToDimension 1 = .ok 2 :=
  ⟨(partial_size_eq_neg_one ⟨[2, -1, 4]⟩ 1 (by decide)).2 ⟨1, by decide, by decide, by decide⟩,
    (partial_size_eq_neg_one ⟨[2, -1, 4]⟩ 2 (by decide)).1 ⟨1, by decide, by decide, by decide⟩,
    by decide⟩

/-- Claim C7: `SizeToDimension(d)` and `SizeFromDimension(d)` end in the Invalid-Argument
failure exactly when `d > rank`, and return a value exactly when `d ≤ rank` (`d = rank`
included). -/
theorem partial_size_fails_iff (s : TensorShape) (d : Nat) :
    ((∃ msg, s.SizeToDimension d = .error (.InvalidArgument msg)) ↔ s.size < d) ∧
      ((∃ v, s.SizeToDimension d = .ok v) ↔ d ≤ s.size) ∧
      ((∃ msg, s.SizeFromDimension d = .error (.InvalidArgument msg)) ↔ s.size < d) ∧
      ((∃ v, s.SizeFromDimension d = .ok v) ↔ d ≤ s.size) := by
  by_cases hd : d ≤ s.size
  · have hto := SizeToDimension_ok s d hd
    have hfrom := SizeFromDimension_ok s d hd
    refine ⟨⟨?_, fun h => absurd hd (not_le.mpr h)⟩, ⟨fun _ => hd, fun _ => ⟨_, hto⟩⟩,
      ⟨?_, fun h => absurd hd (not_le.mpr h)⟩, ⟨fun _ => hd, fun _ => ⟨_, hfrom⟩⟩⟩
    · rintro ⟨msg, h⟩
      rw [hto] at h
      exact Except.noConfusion h
    · rintro ⟨msg, h⟩
      rw [hfrom] at h
      exact Except.noConfusion h
  · have hlt : s.size < d := not_le.mp hd
    have hto := SizeToDimension_of_gt s d hlt
    have hfrom := SizeFromDimension_of_gt s d hlt
    refine ⟨⟨fun _ => hlt, fun _ => ⟨_, hto⟩⟩, ⟨?_, fun h => absurd h hd⟩,
      ⟨fun _ => hlt, fun _ => ⟨_, hfrom⟩⟩, ⟨?_, fun h => absurd h hd⟩⟩
    · rintro ⟨v, h⟩
      rw [hto] at h
      exact Except.noConfusion h
    · rintro ⟨v, h⟩
      rw [hfrom] at h
      exact Except.noConfusion h

/-! ## Slicing -/

theorem Slice_of_valid (s : TensorShape) (dimstart dimend : Nat) (h1 : dimstart ≤ dimend)
    (h2 : dimend ≤ s.size) :
    s.Slice dimstart dimend = .ok ⟨(s.dims.drop dimstart).take (dimend - dimstart)⟩ := by
  have h2l : dimend ≤ s.dims.length := h2
  simp only [Slice, ONNXRUNTIME_ENFORCE, h1, h2, and_self, decide_True, if_true]
  show ofRange s.dims dimstart dimend = _
  simp only [ofRange, h1, h2l, and_self, if_true]

theorem Slice_of_invalid (s : TensorShape) (dimstart dimend : Nat)
    (h : dimend < dimstart ∨ s.size < dimend) :
    s.Slice dimstart dimend =
      .error (.InvalidArgument "Invalid tensor shape slice argument.") := by
  have hc : ¬ (dimstart ≤ dimend ∧ dimend ≤ s.size) := by omega
  simp only [Slice, ONNXRUNTIME_ENFORCE, hc, decide_False]
  rfl

theorem ofRange_of_invalid (dims : List Int) (start end_ : Nat)
    (h : end_ < start ∨ dims.length < end_) :
    ofRange dims start end_ = .error .OutOfBounds := by
  have hc : ¬ (start ≤ end_ ∧ end_ ≤ dims.length) := by omega
  simp only [ofRange, hc, if_false]

/-- Claim C8: `Slice(start, end)` ends in the Invalid-Argument failure exactly when
`start > end` or `end > rank`, and returns a shape exactly when `start ≤ end ≤ rank`. It never
ends in the undefined behaviour of the range-copy constructor: on the failing path that
constructor would be outside its valid range, and the failed enforce ends the call before
whatever follows it is run. -/
theorem Slice_fails_iff (s : TensorShape) (dimstart dimend : Nat) :
    (s.Slice dimstart dimend = .error (.InvalidArgument "Invalid tensor shape slice argument.")
        ↔ (dimend < dimstart ∨ s.size < dimend)) ∧
      ((∃ r, s.Slice dimstart dimend = .ok r) ↔ (dimstart ≤ dimend ∧ dimend ≤ s.size)) ∧
      s.Slice dimstart dimend ≠ .error .OutOfBounds ∧
      ((dimend < dimstart ∨ s.size < dimend) →
        ofRange s.dims dimstart dimend = .error .OutOfBounds ∧
        ∀ k : Unit → Except Fault TensorShape,
          (ONNXRUNTIME_ENFORCE (decide (dimstart ≤ dimend ∧ dimend ≤ s.size))
              "Invalid tensor shape slice argument." >>= k) =
            .error (.InvalidArgument "Invalid tensor shape slice argument.")) := by
  by_cases hv : dimstart ≤ dimend ∧ dimend ≤ s.size
  · have hok := Slice_of_valid s dimstart dimend hv.1 hv.2
    refine ⟨⟨?_, fun h => by omega⟩, ⟨fun _ => hv, fun _ => ⟨_, hok⟩⟩, ?_, fun h => by omega⟩
    · intro h
      rw [hok] at h
      exact Except.noConfusion h
    · rw [hok]
      exact fun h => Except.noConfusion h
  · have hinv : dimend < dimstart ∨ s.size < dimend := by omega
    have herr := Slice_of_invalid s dimstart dimend hinv
    refine ⟨⟨fun _ => hinv, fun _ => herr⟩, ⟨?_, fun h => absurd h hv⟩, ?_, fun _ => ⟨?_, ?_⟩⟩
    · rintro ⟨r, h⟩
      rw [herr] at h
      exact Except.noConfusion h
    · rw [herr]
      intro h
      exact Fault.noConfusion (Except.error.inj h)
    · exact ofRange_of_invalid s.dims dimstart dimend hinv
    · intro k
      simp only [ONNXRUNTIME_ENFORCE, hv, decide_False]
      rfl

/-- Instances of C8 on `[5,6,7]`: `Slice(3,2)` and `Slice(1,4)` fail with the enforce
diagnostic although the range-copy constructor is undefined on those ranges. -/
theorem Slice_fails_iff_witness :
    ((TensorShape.mk [5, 6, 7]).Slice 3 2 =
        .error (.InvalidArgument "Invalid tensor shape slice argument.") ∧
      ofRange (TensorShape.mk [5, 6, 7]).dims 3 2 = .error .OutOfBounds) ∧
    ((TensorShape.mk [5, 6, 7]).Slice 1 4 =
        .error (.InvalidArgument "Invalid tensor shape slice argument.") ∧
      ofRange (TensorShape.mk [5, 6, 7]).dims 1 4 = .error .OutOfBounds) :=
  ⟨⟨(Slice_fails_iff ⟨[5, 6, 7]⟩ 3 2).1.mpr (by decide),
      ((Slice_fails_iff ⟨[5, 6, 7]⟩ 3 2).2.2.2 (by decide)).1⟩,
    ⟨(Slice_fails_iff ⟨[5, 6, 7]⟩ 1 4).1.mpr (by decide),
      ((Slice_fails_iff ⟨[5, 6, 7]⟩ 1 4).2.2.2 (by decide)).1⟩⟩

/-- Claim C9: for `start ≤ end ≤ rank`, `Slice(start, end)` returns a shape of rank
`end - start` whose `i`-th extent is the `(start+i)`-th extent of the source, for every
`i < end - start`, negative extents included. -/
theorem Slice_content (s : TensorShape) (dimstart dimend : Nat) (h1 : dimstart ≤ dimend)
    (h2 : dimend ≤ s.size) :
    ∃ r, s.Slice dimstart dimend = .ok r ∧ r.size = dimend - dimstart ∧
      ∀ i, i < dimend - dimstart →
        ∃ x, r.dims[i]? = some x ∧ s.dims[dimstart + i]? = some x := by
  have h2l : dimend ≤ s.dims.length := h2
  refine ⟨_, Slice_of_valid s dimstart dimend h1 h2, ?_, ?_⟩
  · simp only [size, List.length_take, List.length_drop]
    omega
  · intro i hi
    have hlt : dimstart + i < s.dims.length := by omega
    refine ⟨s.dims[dimstart + i], ?_, List.getElem?_eq_getElem hlt⟩
    rw [List.getElem?_take_of_lt hi, List.getElem?_drop, List.getElem?_eq_getElem hlt]

/-- The scenario of the spec, `Shape([5,6,7]).Slice(1,3)` is `[6,7]`, through C9. -/
theorem Slice_content_witness :
    1 ≤ 3 ∧ 3 ≤ (TensorShape.mk [5, 6, 7]).size ∧
      (TensorShape.mk [5, 6, 7]).Slice 1 3 = .ok ⟨[6, 7]⟩ ∧
      ∃ r, (TensorShape.mk [5, 6, 7]).Slice 1 3 = .ok r ∧ r.size = 3 - 1 ∧
        ∀ i, i < 3 - 1 →
          ∃ x, r.dims[i]? = some x ∧ (TensorShape.mk [5, 6, 7]).dims[1 + i]? = some x :=
  ⟨by decide, by decide, by decide, Slice_content ⟨[5, 6, 7]⟩ 1 3 (by decide) (by decide)⟩

/-- Claim C10: `Slice(start)` has the same outcome as `Slice(start, rank)`: for
`start ≤ rank` both return the shape of the extents from `start` on, and for `start > rank`
both end in the same Invalid-Argument failure. -/
theorem SliceFrom_eq_Slice (s : TensorShape) (dimstart : Nat) :
    s.SliceFrom dimstart = s.Slice dimstart s.size ∧
      (dimstart ≤ s.size →
        s.SliceFrom dimstart = .ok ⟨s.dims.drop dimstart⟩ ∧
        s.Slice dimstart s.size = .ok ⟨s.dims.drop dimstart⟩) ∧
      (s.size < dimstart →
        s.SliceFrom dimstart =
          .error (.InvalidArgument "Invalid tensor shape slice argument.") ∧
        s.Slice dimstart s.size =
          .error (.InvalidArgument "Invalid tensor shape slice argument.")) := by
  refine ⟨rfl, ?_, ?_⟩
  · intro h
    have hok := Slice_of_valid s dimstart s.size h (Nat.le_refl _)
    have ht : (s.dims.drop dimstart).take (s.size - dimstart) = s.dims.drop dimstart :=
      List.take_of_length_le (by simp [size])
    rw [ht] at hok
    exact ⟨hok, hok⟩
  · intro h
    have herr := Slice_of_invalid s dimstart s.size (Or.inl h)
    exact ⟨herr, herr⟩

/-- Instances of C10 on `[5,6,7]`: `Slice(1)` is `[6,7]` and `Slice(4)` fails. -/
theorem SliceFrom_eq_Slice_witness :
    ((TensorShape.mk [5, 6, 7]).SliceFrom 1 = .ok ⟨[6, 7]⟩ ∧
      (TensorShape.mk [5, 6, 7]).Slice 1 (TensorShape.mk [5, 6, 7]).size = .ok ⟨[6, 7]⟩) ∧
    ((TensorShape.mk [5, 6, 7]).SliceFrom 4 =
        .error (.InvalidArgument "Invalid tensor shape slice argument.") ∧
      (TensorShape.mk [5, 6, 7]).Slice 4 (TensorShape.mk [5, 6, 7]).size =
        .error (.InvalidArgument "Invalid tensor shape slice argument.")) :=
  ⟨(SliceFrom_eq_Slice ⟨[5, 6, 7]⟩ 1).2.1 (by decide),
    (SliceFrom_eq_Slice ⟨[5, 6, 7]⟩ 4).2.2 (by decide)⟩

/-! ## Empty and full ranges -/

/-- Claim C11, the empty-range identity: a shape of rank 0 has size 1; for every shape,
`SizeToDimension(0)` and `SizeFromDimension(rank)` return 1 whatever the extents; and for
every `k ≤ rank` the slice `Slice(k, k)` is returned and has size 1. -/
theorem empty_range_identity (s : TensorShape) :
    (s.size = 0 → s.Size = .ok 1) ∧
      s.SizeToDimension 0 = .ok 1 ∧
      s.SizeFromDimension s.size = .ok 1 ∧
      ∀ k, k ≤ s.size → ∃ r, s.Slice k k = .ok r ∧ r.Size = .ok 1 := by
  refine ⟨?_, ?_, ?_, ?_⟩
  · intro h
    have hnil : s.dims = [] := List.length_eq_zero.mp h
    rw [Size_ok, hnil]
    rfl
  · rw [SizeToDimension_ok s 0 (Nat.zero_le _)]
    rfl
  · rw [SizeFromDimension_ok s s.size (Nat.le_refl _)]
    have hnil : s.dims.drop s.size = [] := List.drop_of_length_le (Nat.le_refl _)
    rw [hnil]
    rfl
  · intro k hk
    refine ⟨_, Slice_of_valid s k k (Nat.le_refl _) hk, ?_⟩
    rw [Size_ok]
    simp only [Nat.sub_self, List.take_zero]
    rfl

/-- The scenario of the spec, `Shape([5,6,7]).Slice(3,3).Size() == 1`, and the rank-0 shape,
through C11. -/
theorem empty_range_identity_witness :
    (TensorShape.mk []).Size = .ok 1 ∧
      ∃ r, (TensorShape.mk [5, 6, 7]).Slice 3 3 = .ok r ∧ r.Size = .ok 1 :=
  ⟨(empty_range_identity ⟨[]⟩).1 (by decide),
    (empty_range_identity ⟨[5, 6, 7]⟩).2.2.2 3 (by decide)⟩

/-- Claim C12, the full-range equivalence: for every shape, with or without negative
extents, `SizeToDimension(rank)` and `SizeFromDimension(0)` return the value that `Size()`
returns. -/
theorem full_range_equivalence (s : TensorShape) :
    ∃ v, s.Size = .ok v ∧ s.SizeToDimension s.size = .ok v ∧
      s.SizeFromDimension 0 = .ok v := by
  refine ⟨_, Size_ok s, ?_, ?_⟩
  · rw [SizeToDimension_ok s s.size (Nat.le_refl _)]
    have ht : s.dims.take s.size = s.dims := List.take_of_length_le (Nat.le_refl _)
    rw [ht]
  · rw [SizeFromDimension_ok s 0 (Nat.zero_le _)]
    rfl

/-! ## The early return against a full scan -/

theorem fullScan_foldl (l : List Int) :
    ∀ (acc : Int) (neg : Bool), wrapInt64 acc = acc →
      l.foldl (fun (a : Int × Bool) d => (mulInt64 a.1 d, a.2 || decide (d < 0))) (acc, neg) =
        (wrapInt64 (acc * l.prod), neg || decide (∃ x ∈ l, x < 0)) := by
  induction l with
  | nil => intro acc neg h; simp [h]
  | cons d l ih =>
    intro acc neg _
    rw [List.foldl_cons, ih (mulInt64 acc d) (neg || decide (d < 0)) (wrapInt64_idem _)]
    simp only [mulInt64, wrapInt64_mul_left, List.prod_cons, Int.mul_assoc, Prod.mk.injEq,
      true_and]
    by_cases hd : d < 0 <;> simp [hd]

theorem SizeHelperFullScan_eq (s : TensorShape) (start end_ : Nat) :
    s.SizeHelperFullScan start end_ =
      if ∃ x ∈ (s.dims.drop start).take (end_ - start), x < 0 then -1
      else wrapInt64 ((s.dims.drop start).take (end_ - start)).prod := by
  unfold SizeHelperFullScan
  simp only [fullScan_foldl _ 1 false (by decide), Int.one_mul, Bool.false_or,
    decide_eq_true_eq]

/-- Claim C16: on every range `[start, end)` with `start ≤ end ≤ rank`, the helper, which
returns at the first negative extent, returns the value of the reference that scans the
whole range before deciding; so do `Size()`, `SizeToDimension(d)` and
`SizeFromDimension(d)` on their ranges. -/
theorem SizeHelper_eq_full_scan (s : TensorShape) (start end_ : Nat) (h1 : start ≤ end_)
    (h2 : end_ ≤ s.size) :
    s.SizeHelper start end_ = .ok (s.SizeHelperFullScan start end_) ∧
      s.Size = .ok (s.SizeHelperFullScan 0 s.size) ∧
      ∀ d, d ≤ s.size →
        s.SizeToDimension d = .ok (s.SizeHelperFullScan 0 d) ∧
        s.SizeFromDimension d = .ok (s.SizeHelperFullScan d s.size) := by
  refine ⟨?_, ?_, fun d hd => ⟨?_, ?_⟩⟩
  · rw [SizeHelper_ok s start end_ h1 h2, SizeHelperFullScan_eq]
  · show s.SizeHelper 0 s.size = _
    rw [SizeHelper_ok s 0 s.size (Nat.zero_le _) (Nat.le_refl _), SizeHelperFullScan_eq]
  · rw [SizeToDimension_of_le s d hd, SizeHelper_ok s 0 d (Nat.zero_le _) hd,
      SizeHelperFullScan_eq]
  · rw [SizeFromDimension_of_le s d hd, SizeHelper_ok s d s.size hd (Nat.le_refl _),
      SizeHelperFullScan_eq]

/-- Instances of C16 on `[2,-1,0,4]`: the early return and the full scan agree on a range
with a negative extent (`-1`) and on one without (`0`). -/
theorem SizeHelper_eq_full_scan_witness :
    ((TensorShape.mk [2, -1, 0, 4]).SizeHelper 0 4 = .ok (-1) ∧
      (TensorShape.mk [2, -1, 0, 4]).SizeHelperFullScan 0 4 = -1) ∧
    ((TensorShape.mk [2, -1, 0, 4]).SizeHelper 2 4 = .ok 0 ∧
      (TensorShape.mk [2, -1, 0, 4]).SizeHelperFullScan 2 4 = 0) :=
  ⟨⟨(SizeHelper_eq_full_scan ⟨[2, -1, 0, 4]⟩ 0 4 (by decide) (by decide)).1, by decide⟩,
    ⟨(SizeHelper_eq_full_scan ⟨[2, -1, 0, 4]⟩ 2 4 (by decide) (by decide)).1, by decide⟩⟩

/-! ## Slices against partial sizes, and slices of slices -/

/-- Claim C17: for every shape, with or without negative extents, and every `d ≤ rank`, the
slice `Slice(0, d)` is returned and its `Size()` is the value of `SizeToDimension(d)`, and the
slice `Slice(d)` is returned and its `Size()` is the value of `SizeFromDimension(d)`. -/
theorem partial_size_eq_slice_size (s : TensorShape) (d : Nat) (hd : d ≤ s.size) :
    (∃ r v, s.Slice 0 d = .ok r ∧ r.Size = .ok v ∧ s.SizeToDimension d = .ok v) ∧
      (∃ r v, s.SliceFrom d = .ok r ∧ r.Size = .ok v ∧ s.SizeFromDimension d = .ok v) := by
  constructor
  · refine ⟨_, _, Slice_of_valid s 0 d (Nat.zero_le _) hd, Size_ok _, ?_⟩
    rw [SizeToDimension_ok s d hd]
    simp only [List.drop_zero, Nat.sub_zero]
  · have ht : (s.dims.drop d).take (s.size - d) = s.dims.drop d :=
      List.take_of_length_le (by simp [size])
    refine ⟨_, _, Slice_of_valid s d s.size hd (Nat.le_refl _), Size_ok _, ?_⟩
    rw [SizeFromDimension_ok s d hd]
    simp only [ht]

/-- Instances of C17 on `[2,-1,4]` at `d = 1` and `d = 2`. -/
theorem partial_size_eq_slice_size_witness :
    (∃ r v, (TensorShape.mk [2, -1, 4]).Slice 0 1 = .ok r ∧ r.Size = .ok v ∧
        (TensorShape.mk [2, -1, 4]).SizeToDimension 1 = .ok v) ∧
      (∃ r v, (TensorShape.mk [2, -1, 4]).SliceFrom 2 = .ok r ∧ r.Size = .ok v ∧
        (TensorShape.mk [2, -1, 4]).SizeFromDimension 2 = .ok v) :=
  ⟨(partial_size_eq_slice_size ⟨[2, -1, 4]⟩ 1 (by decide)).1,
    (partial_size_eq_slice_size ⟨[2, -1, 4]⟩ 2 (by decide)).2⟩

theorem segment_of_segment (l : List Int) (a b c e : Nat) (hce : c ≤ e) (heb : e ≤ b - a) :
    (((l.drop a).take (b - a)).drop c).take (e - c) = (l.drop (a + c)).take (a + e - (a + c)) := by
  rw [List.drop_take, List.take_take, List.drop_drop]
  congr 1
  omega

/-- Claim C18: the full slice `Slice(0, rank)` returns the shape itself, and for
`a ≤ b ≤ rank` and `c ≤ e ≤ b - a` the slice `Slice(c, e)` of `Slice(a, b)` is returned and
is the slice `Slice(a + c, a + e)` of the source. -/
theorem Slice_compose (s : TensorShape) :
    s.Slice 0 s.size = .ok s ∧
      ∀ a b c e, a ≤ b → b ≤ s.size → c ≤ e → e ≤ b - a →
        ∃ r t, s.Slice a b = .ok r ∧ r.Slice c e = .ok t ∧
          s.Slice (a + c) (a + e) = .ok t := by
  constructor
  · rw [Slice_of_valid s 0 s.size (Nat.zero_le _) (Nat.le_refl _)]
    have ht : (s.dims.drop 0).take (s.size - 0) = s.dims := by
      simp [size]
    rw [ht]
  · intro a b c e hab hb hce heb
    have hbl : b ≤ s.dims.length := hb
    have hr := Slice_of_valid s a b hab hb
    have hrsize : (TensorShape.mk ((s.dims.drop a).take (b - a))).size = b - a := by
      simp only [size, List.length_take, List.length_drop]
      omega
    have ht := Slice_of_valid ⟨(s.dims.drop a).take (b - a)⟩ c e hce (by rw [hrsize]; exact heb)
    have hs := Slice_of_valid s (a + c) (a + e) (by omega) (by show a + e ≤ s.dims.length; omega)
    refine ⟨_, _, hr, ht, ?_⟩
    rw [hs, segment_of_segment s.dims a b c e hce heb]

/-- Instances of C18 on `[5,6,7,8,9]`: the full slice, and `Slice(1,4).Slice(1,3)`, which is
`Slice(2,4)`, that is `[7,8]`. -/
theorem Slice_compose_witness :
    (TensorShape.mk [5, 6, 7, 8, 9]).Slice 0 5 = .ok ⟨[5, 6, 7, 8, 9]⟩ ∧
      (TensorShape.mk [5, 6, 7, 8, 9]).Slice (1 + 1) (1 + 3) = .ok ⟨[7, 8]⟩ ∧
      ∃ r t, (TensorShape.mk [5, 6, 7, 8, 9]).Slice 1 4 = .ok r ∧ r.Slice 1 3 = .ok t ∧
        (TensorShape.mk [5, 6, 7, 8, 9]).Slice (1 + 1) (1 + 3) = .ok t :=
  ⟨(Slice_compose ⟨[5, 6, 7, 8, 9]⟩).1, by decide,
    (Slice_compose ⟨[5, 6, 7, 8, 9]⟩).2 1 4 1 3 (by decide) (by decide) (by decide)
      (by decide)⟩

end TensorShape

/-! ## Joining texts with a separator -/

theorem foldl_append_string (l : List String) :
    ∀ acc : String, l.foldl (fun r t => r ++ t) acc = acc ++ l.foldl (fun r t => r ++ t) "" := by
  induction l with
  | nil => intro acc; simp
  | cons x l ih =>
    intro acc
    rw [List.foldl_cons, List.foldl_cons, ih (acc ++ x), ih ("" ++ x), String.empty_append,
      String.append_assoc]

theorem join_cons_string (x : String) (l : List String) :
    String.join (x :: l) = x ++ String.join l := by
  unfold String.join
  rw [List.foldl_cons, foldl_append_string, String.empty_append]

theorem intercalate_go_eq (sep : String) (l : List String) :
    ∀ acc : String, String.intercalate.go acc sep l = acc ++ String.join (l.map (sep ++ ·)) := by
  induction l with
  | nil => intro acc; simp [String.intercalate.go, String.join]
  | cons x l ih =>
    intro acc
    rw [String.intercalate.go, ih, List.map_cons, join_cons_string]
    simp only [String.append_assoc]

theorem intercalate_cons_string (sep a : String) (l : List String) :
    sep.intercalate (a :: l) = a ++ String.join (l.map (sep ++ ·)) := by
  rw [String.intercalate, intercalate_go_eq]

namespace TensorShape

theorem ToString_loop_false (dims : List Int) :
    ∀ result : String, ToString.loop dims result false =
      result ++ String.join (dims.map fun d => "," ++ std.to_string d) := by
  induction dims with
  | nil => intro result; simp [ToString.loop, String.join]
  | cons d dims ih =>
    intro result
    simp only [ToString.loop, Bool.not_false, if_true, List.map_cons]
    rw [ih, join_cons_string]
    simp only [String.append_assoc]

theorem ToString_eq (s : TensorShape) :
    s.ToString = "\x7b" ++ ",".intercalate (s.dims.map std.to_string) ++ "\x7d" := by
  unfold ToString
  cases hd : s.dims with
  | nil => rfl
  | cons d dims =>
    simp only [ToString.loop, Bool.not_true, if_false, List.map_cons, Bool.false_eq_true]
    rw [ToString_loop_false, intercalate_cons_string, List.map_map]
    simp only [String.empty_append, String.append_assoc]
    rfl

end TensorShape

/-! ## Decimal digits -/

theorem digitChar_spec (m : Nat) (h : m < 10) :
    (Nat.digitChar m).isDigit = true ∧ (Nat.digitChar m).toNat - '0'.toNat = m := by
  interval_cases m <;> decide

theorem toDigitsCore_append :
    ∀ (fuel n : Nat) (ds : List Char),
      Nat.toDigitsCore 10 fuel n ds = Nat.toDigitsCore 10 fuel n [] ++ ds := by
  intro fuel
  induction fuel with
  | zero => intro n ds; simp [Nat.toDigitsCore]
  | succ fuel ih =>
    intro n ds
    simp only [Nat.toDigitsCore]
    split
    · simp
    · rw [ih (n / 10) (Nat.digitChar (n % 10) :: ds), ih (n / 10) [Nat.digitChar (n % 10)]]
      simp

theorem toDigitsCore_fuel :
    ∀ (f1 f2 n : Nat), n < f1 → n < f2 →
      Nat.toDigitsCore 10 f1 n [] = Nat.toDigitsCore 10 f2 n [] := by
  intro f1
  induction f1 with
  | zero => intro f2 n h; omega
  | succ f1 ih =>
    intro f2 n h1 h2
    cases f2 with
    | zero => omega
    | succ f2 =>
      simp only [Nat.toDigitsCore]
      split
      · rfl
      · rw [toDigitsCore_append f1, toDigitsCore_append f2,
          ih f2 (n / 10) (by omega) (by omega)]

theorem toDigits_of_lt (n : Nat) (h : n < 10) : Nat.toDigits 10 n = [Nat.digitChar n] := by
  have h0 : n / 10 = 0 := by omega
  have hm : n % 10 = n := by omega
  simp [Nat.toDigits, Nat.toDigitsCore, h0, hm]

theorem toDigits_of_ge (n : Nat) (h : 10 ≤ n) :
    Nat.toDigits 10 n = Nat.toDigits 10 (n / 10) ++ [Nat.digitChar (n % 10)] := by
  have h0 : ¬ n / 10 = 0 := by omega
  have hstep : Nat.toDigitsCore 10 (n + 1) n [] =
      Nat.toDigitsCore 10 n (n / 10) [Nat.digitChar (n % 10)] := by
    simp only [Nat.toDigitsCore, h0, if_false]
  unfold Nat.toDigits
  rw [hstep, toDigitsCore_append,
    toDigitsCore_fuel n (n / 10 + 1) (n / 10) (by omega) (by omega)]

theorem decimalValue_append (ds : List Char) (c : Char) :
    decimalValue (ds ++ [c]) = 10 * decimalValue ds + (c.toNat - '0'.toNat) := by
  simp [decimalValue, List.foldl_append]

/-- The digits of `n`: a non-empty text of decimal digits that denotes `n`, without a
leading zero unless `n = 0`. -/
theorem toDigits_spec (n : Nat) :
    Nat.toDigits 10 n ≠ [] ∧ (∀ c ∈ Nat.toDigits 10 n, c.isDigit = true) ∧
      decimalValue (Nat.toDigits 10 n) = n ∧
      (0 < n → (Nat.toDigits 10 n).head? ≠ some '0') := by
  induction n using Nat.strong_induction_on with
  | _ n ih =>
    by_cases h : n < 10
    · rw [toDigits_of_lt n h]
      have hd := digitChar_spec n h
      refine ⟨by simp, ?_, ?_, ?_⟩
      · intro c hc
        rw [List.mem_singleton.mp hc]
        exact hd.1
      · simpa [decimalValue] using hd.2
      · intro hpos
        interval_cases n <;> first | omega | decide
    · have hge : 10 ≤ n := by omega
      rw [toDigits_of_ge n hge]
      obtain ⟨hne, hdig, hval, hlead⟩ := ih (n / 10) (by omega)
      have hd := digitChar_spec (n % 10) (by omega)
      refine ⟨by simp, ?_, ?_, ?_⟩
      · intro c hc
        rcases List.mem_append.mp hc with hc | hc
        · exact hdig c hc
        · rw [List.mem_singleton.mp hc]
          exact hd.1
      · rw [decimalValue_append, hval, hd.2]
        omega
      · intro _
        have hl := hlead (by omega)
        cases hq : Nat.toDigits 10 (n / 10) with
        | nil => exact absurd hq hne
        | cons a as =>
          rw [hq] at hl
          simpa using hl

/-! ## The text of one extent -/

theorem to_string_data (d : Int) :
    (std.to_string d).data =
      if d < 0 then '-' :: Nat.toDigits 10 d.natAbs else Nat.toDigits 10 d.toNat := by
  unfold std.to_string
  split <;> rfl

/-- The text of an extent is its decimal representation: the digits of the magnitude, a
non-empty text of decimal digits that denotes it and has no leading zero unless the extent
is zero, after a `-` when the extent is negative. -/
theorem to_string_spec (d : Int) :
    ∃ ds : List Char, ds ≠ [] ∧ (∀ c ∈ ds, c.isDigit = true) ∧ decimalValue ds = d.natAbs ∧
      (ds.head? = some '0' → d = 0) ∧
      (std.to_string d).data = if d < 0 then '-' :: ds else ds := by
  by_cases hd : d < 0
  · obtain ⟨hne, hdig, hval, hlead⟩ := toDigits_spec d.natAbs
    refine ⟨Nat.toDigits 10 d.natAbs, hne, hdig, hval, ?_, ?_⟩
    · intro h0
      exact absurd h0 (hlead (by omega))
    · rw [to_string_data, if_pos hd, if_pos hd]
  · obtain ⟨hne, hdig, hval, hlead⟩ := toDigits_spec d.toNat
    refine ⟨Nat.toDigits 10 d.toNat, hne, hdig, ?_, ?_, ?_⟩
    · rw [hval]; omega
    · intro h0
      by_contra hd0
      exact hlead (by omega) h0
    · rw [to_string_data, if_neg hd, if_neg hd]

theorem to_string_chars (d : Int) :
    (std.to_string d).data ≠ [] ∧
      ∀ c ∈ (std.to_string d).data, c.isDigit = true ∨ c = '-' := by
  obtain ⟨ds, hne, hdig, _, _, hdata⟩ := to_string_spec d
  rw [hdata]
  split
  · refine ⟨by simp, ?_⟩
    intro c hc
    rcases List.mem_cons.mp hc with rfl | hc
    · exact Or.inr rfl
    · exact Or.inl (hdig c hc)
  · exact ⟨hne, fun c hc => Or.inl (hdig c hc)⟩

theorem to_string_no_comma (d : Int) : ',' ∉ (std.to_string d).data := by
  intro h
  rcases (to_string_chars d).2 ',' h with h | h
  · exact absurd h (by decide)
  · exact absurd h (by decide)

theorem to_string_injective (a b : Int) (h : std.to_string a = std.to_string b) : a = b := by
  have hdata : (std.to_string a).data = (std.to_string b).data := by rw [h]
  rw [to_string_data, to_string_data] at hdata
  have hdash : ∀ n : Nat, '-' ∉ Nat.toDigits 10 n := by
    intro n hm
    exact absurd ((toDigits_spec n).2.1 '-' hm) (by decide)
  by_cases ha : a < 0 <;> by_cases hb : b < 0
  · simp only [ha, hb, if_true, List.cons.injEq, true_and] at hdata
    have hv := congrArg decimalValue hdata
    rw [(toDigits_spec _).2.2.1, (toDigits_spec _).2.2.1] at hv
    omega
  · simp only [ha, hb, if_true, if_false] at hdata
    exact absurd (hdata ▸ List.mem_cons_self _ _) (hdash _)
  · simp only [ha, hb, if_true, if_false] at hdata
    exact absurd (hdata ▸ List.mem_cons_self _ _) (hdash _)
  · simp only [ha, hb, if_false] at hdata
    have hv := congrArg decimalValue hdata
    rw [(toDigits_spec _).2.2.1, (toDigits_spec _).2.2.1] at hv
    omega

/-! ## Joined texts as lists of characters -/

theorem join_data (l : List String) : (String.join l).data = (l.map String.data).flatten := by
  induction l with
  | nil => rfl
  | cons x l ih => rw [join_cons_string, String.data_append, ih, List.map_cons, List.flatten_cons]

theorem list_intercalate_cons (sep : Char) (l : List (List Char)) :
    ∀ a : List Char, [sep].intercalate (a :: l) = a ++ (l.map (sep :: ·)).flatten := by
  induction l with
  | nil => intro a; simp [List.intercalate]
  | cons b l ih =>
    intro a
    have h := ih b
    simp only [List.intercalate] at h ⊢
    simp only [List.intersperse_cons₂, List.flatten_cons, h, List.map_cons]
    simp

theorem intercalate_data (l : List String) :
    (",".intercalate l).data = [','].intercalate (l.map String.data) := by
  cases l with
  | nil => rfl
  | cons a l =>
    rw [intercalate_cons_string, String.data_append, join_data, List.map_cons,
      list_intercalate_cons, List.map_map, List.map_map]
    rfl

theorem mem_intercalate (sep : Char) (l : List (List Char)) (x : Char)
    (h : x ∈ [sep].intercalate l) : x = sep ∨ ∃ e ∈ l, x ∈ e := by
  cases l with
  | nil => simp [List.intercalate] at h
  | cons a l =>
    rw [list_intercalate_cons] at h
    rcases List.mem_append.mp h with h | h
    · exact Or.inr ⟨a, List.mem_cons_self _ _, h⟩
    · obtain ⟨t, ht, hx⟩ := List.mem_flatten.mp h
      obtain ⟨e, he, rfl⟩ := List.mem_map.mp ht
      rcases List.mem_cons.mp hx with hx | hx
      · exact Or.inl hx
      · exact Or.inr ⟨e, List.mem_cons_of_mem _ he, hx⟩

theorem count_separated (sep : Char) (l : List (List Char)) (h : ∀ e ∈ l, sep ∉ e) :
    ((l.map (sep :: ·)).flatten).count sep = l.length := by
  induction l with
  | nil => rfl
  | cons b l ih =>
    have hb : sep ∉ b := h b (List.mem_cons_self _ _)
    have hl : ∀ e ∈ l, sep ∉ e := fun e he => h e (List.mem_cons_of_mem _ he)
    simp only [List.map_cons, List.flatten_cons, List.cons_append, List.count_cons_self,
      List.count_append, List.count_eq_zero_of_not_mem hb, ih hl, List.length_cons]
    omega

theorem count_le_separated (sep : Char) (l : List (List Char)) :
    l.length ≤ ((l.map (sep :: ·)).flatten).count sep := by
  induction l with
  | nil => simp
  | cons b l ih =>
    simp only [List.map_cons, List.flatten_cons, List.cons_append, List.count_cons_self,
      List.count_append, List.length_cons]
    omega

theorem count_intercalate (sep : Char) (l : List (List Char)) (h : ∀ e ∈ l, sep ∉ e) :
    ([sep].intercalate l).count sep = l.length - 1 := by
  cases l with
  | nil => simp [List.intercalate]
  | cons a l =>
    rw [list_intercalate_cons, List.count_append,
      List.count_eq_zero_of_not_mem (h a (List.mem_cons_self _ _)),
      count_separated sep l (fun e he => h e (List.mem_cons_of_mem _ he))]
    simp

theorem intercalate_injective (sep : Char) (l1 l2 : List (List Char))
    (h1 : ∀ e ∈ l1, sep ∉ e ∧ e ≠ []) (h2 : ∀ e ∈ l2, sep ∉ e ∧ e ≠ [])
    (h : [sep].intercalate l1 = [sep].intercalate l2) : l1 = l2 := by
  have hnil : ∀ (a : List Char) (l : List (List Char)), a ≠ [] →
      [sep].intercalate (a :: l) ≠ [] := by
    intro a l ha
    rw [list_intercalate_cons]
    simp [ha]
  cases l1 with
  | nil =>
    cases l2 with
    | nil => rfl
    | cons b l2 =>
      exact absurd h.symm (by
        have := hnil b l2 (h2 b (List.mem_cons_self _ _)).2
        simpa [List.intercalate] using this)
  | cons a l1 =>
    cases l2 with
    | nil =>
      exact absurd h (by
        have := hnil a l1 (h1 a (List.mem_cons_self _ _)).2
        simpa [List.intercalate] using this)
    | cons b l2 =>
      have e1 := List.splitOn_intercalate (a :: l1) sep (fun e he => (h1 e he).1)
        (List.cons_ne_nil a l1)
      have e2 := List.splitOn_intercalate (b :: l2) sep (fun e he => (h2 e he).1)
        (List.cons_ne_nil b l2)
      rw [← e1, ← e2, h]

namespace TensorShape

/-! ## The text of a shape -/

theorem ToString_data (s : TensorShape) :
    s.ToString.data =
      '\x7b' :: ([','].intercalate (s.dims.map fun d => (std.to_string d).data) ++ ['\x7d']) := by
  rw [ToString_eq, String.data_append, String.data_append, intercalate_data, List.map_map]
  rfl

/-- Claim C13: `ToString()` is an opening brace, the texts of the extents in order joined by
single commas, and a closing brace; the text of an extent is its decimal representation (the
digits of the magnitude, which denote it and have no leading zero unless the extent is zero),
after a `-` when the extent is negative. -/
theorem ToString_format (s : TensorShape) :
    s.ToString = "\x7b" ++ ",".intercalate (s.dims.map std.to_string) ++ "\x7d" ∧
      ∀ d ∈ s.dims, ∃ ds : List Char, ds ≠ [] ∧ (∀ c ∈ ds, c.isDigit = true) ∧
        decimalValue ds = d.natAbs ∧ (ds.head? = some '0' → d = 0) ∧
        (std.to_string d).data = if d < 0 then '-' :: ds else ds :=
  ⟨ToString_eq s, fun d _ => to_string_spec d⟩

/-- The scenarios of the spec through C13: `[2,-1,4]`, rank 0 and `[2,3,4]`, and the text
of the extent `-1`. -/
theorem ToString_format_witness :
    (TensorShape.mk [2, -1, 4]).ToString = "\x7b2,-1,4\x7d" ∧
      (TensorShape.mk []).ToString = "\x7b\x7d" ∧
      (TensorShape.mk [2, 3, 4]).ToString = "\x7b2,3,4\x7d" ∧
      ∃ ds : List Char, ds ≠ [] ∧ (∀ c ∈ ds, c.isDigit = true) ∧
        decimalValue ds = (-1 : Int).natAbs ∧ (ds.head? = some '0' → (-1 : Int) = 0) ∧
        (std.to_string (-1)).data = if (-1 : Int) < 0 then '-' :: ds else ds :=
  ⟨(ToString_format ⟨[2, -1, 4]⟩).1.trans (by decide),
    (ToString_format ⟨[]⟩).1.trans (by decide),
    (ToString_format ⟨[2, 3, 4]⟩).1.trans (by decide),
    (ToString_format ⟨[2, -1, 4]⟩).2 (-1) (by decide)⟩

/-- Claim C14: for every shape, `ToString()` is a word of the grammar
`"\x7b" (extent ("," extent)*)? "\x7d"` with `extent := "-"? digit+`: an opening brace, then
exactly `rank` extents joined by commas, then a closing brace, where every extent is a
non-empty run of digits with an optional leading `-`; between the braces there are only
digits, `-` and `,`, and the number of commas is `rank - 1`. -/
theorem ToString_grammar (s : TensorShape) :
    ∃ exts : List (List Char),
      s.ToString.data = '\x7b' :: ([','].intercalate exts ++ ['\x7d']) ∧
      exts.length = s.size ∧
      (∀ e ∈ exts, ∃ ds : List Char, ds ≠ [] ∧ (∀ c ∈ ds, c.isDigit = true) ∧
        (e = ds ∨ e = '-' :: ds)) ∧
      (∀ c ∈ [','].intercalate exts, c.isDigit = true ∨ c = '-' ∨ c = ',') ∧
      ([','].intercalate exts).count ',' = s.size - 1 := by
  refine ⟨s.dims.map fun d => (std.to_string d).data, ToString_data s, ?_, ?_, ?_, ?_⟩
  · simp [size]
  · intro e he
    obtain ⟨d, _, rfl⟩ := List.mem_map.mp he
    obtain ⟨ds, hne, hdig, _, _, hdata⟩ := to_string_spec d
    refine ⟨ds, hne, hdig, ?_⟩
    rw [hdata]
    split
    · exact Or.inr rfl
    · exact Or.inl rfl
  · intro c hc
    rcases mem_intercalate _ _ _ hc with rfl | ⟨e, he, hce⟩
    · exact Or.inr (Or.inr rfl)
    · obtain ⟨d, _, rfl⟩ := List.mem_map.mp he
      rcases (to_string_chars d).2 c hce with h | h
      · exact Or.inl h
      · exact Or.inr (Or.inl h)
  · rw [count_intercalate]
    · simp [size]
    · intro e he
      obtain ⟨d, _, rfl⟩ := List.mem_map.mp he
      exact to_string_no_comma d

/-- Claim C19: `ToString()` is injective: two shapes with the same text are the same shape,
so they have the same rank and the same extent at every index. -/
theorem ToString_injective (s t : TensorShape) (h : s.ToString = t.ToString) :
    s.size = t.size ∧ (∀ i : Nat, s.dims[i]? = t.dims[i]?) ∧ s = t := by
  have hst : s = t := by
    have hdata : s.ToString.data = t.ToString.data := by rw [h]
    rw [ToString_data, ToString_data] at hdata
    have hmid := List.append_cancel_right (List.cons.inj hdata).2
    have hprop : ∀ u : TensorShape, ∀ e ∈ u.dims.map (fun d => (std.to_string d).data),
        ',' ∉ e ∧ e ≠ [] := by
      intro u e he
      obtain ⟨d, _, rfl⟩ := List.mem_map.mp he
      exact ⟨to_string_no_comma d, (to_string_chars d).1⟩
    have hmap := intercalate_injective ',' _ _ (hprop s) (hprop t) hmid
    have hinj : Function.Injective (fun d : Int => (std.to_string d).data) := by
      intro a b hab
      exact to_string_injective a b (String.ext hab)
    have hdims : s.dims = t.dims := List.map_injective_iff.mpr hinj hmap
    cases s; cases t
    simp only at hdims
    rw [hdims]
  subst hst
  exact ⟨rfl, fun _ => rfl, rfl⟩

/-- Instances of C19: a shape against itself, and `[1,2]` against `[12]`, which are told
apart by their texts. -/
theorem ToString_injective_witness :
    ((TensorShape.mk [2, -1, 4]).ToString = (TensorShape.mk [2, -1, 4]).ToString ∧
      (TensorShape.mk [2, -1, 4]) = (TensorShape.mk [2, -1, 4])) ∧
    (TensorShape.mk [1, 2]).ToString ≠ (TensorShape.mk [12]).ToString :=
  ⟨⟨rfl, (ToString_injective ⟨[2, -1, 4]⟩ ⟨[2, -1, 4]⟩ rfl).2.2⟩,
    fun h => absurd (ToString_injective ⟨[1, 2]⟩ ⟨[12]⟩ h).1 (by decide)⟩

end TensorShape

namespace TensorShapeProto

/-! ## The text of a symbolic shape descriptor -/

theorem print_loop_false (dims : List Dimension) :
    ∀ result : String, print.loop dims result false =
      result ++ String.join (dims.map fun d => "," ++
        (if d.has_dim_value then std.to_string d.dim_value
         else if d.has_dim_param then d.dim_param else "")) := by
  induction dims with
  | nil => intro result; simp [print.loop, String.join]
  | cons d dims ih =>
    intro result
    simp only [print.loop, Bool.not_false, if_true, List.map_cons]
    rw [ih, join_cons_string]
    cases d <;>
      simp [Dimension.has_dim_value, Dimension.has_dim_param, String.append_assoc]

theorem print_eq (p : TensorShapeProto) :
    p.print = "\x7b" ++ ",".intercalate (p.dim.map fun d =>
      if d.has_dim_value then std.to_string d.dim_value
      else if d.has_dim_param then d.dim_param else "") ++ "\x7d" := by
  unfold print
  cases hd : p.dim with
  | nil => rfl
  | cons d dims =>
    simp only [print.loop, Bool.not_true, if_false, List.map_cons, Bool.false_eq_true]
    rw [print_loop_false, intercalate_cons_string, List.map_map]
    cases d <;>
      simp [Dimension.has_dim_value, Dimension.has_dim_param, String.append_assoc] <;> rfl

/-- Claim C15: for every sequence of entries each of which is a concrete integer value or a
named parameter, the descriptor is rendered as an opening brace, the entries in order joined
by single commas, a concrete entry as its decimal text and a parameter entry as its name
unchanged, and a closing brace. -/
theorem print_value_or_param (entries : List (Int ⊕ String)) :
    (TensorShapeProto.mk (entries.map (Sum.elim Dimension.value Dimension.param))).print =
      "\x7b" ++ ",".intercalate (entries.map (Sum.elim std.to_string id)) ++ "\x7d" := by
  rw [print_eq, List.map_map]
  congr 3
  apply List.map_congr_left
  intro e _
  cases e <;> rfl

/-- The scenarios of C15: `[value=2, param="N", value=4]` renders as `{2,N,4}` and the empty
sequence as `{}`. -/
theorem print_value_or_param_witness :
    (TensorShapeProto.mk [.value 2, .param "N", .value 4]).print = "\x7b2,N,4\x7d" ∧
      (TensorShapeProto.mk []).print = "\x7b\x7d" :=
  ⟨(print_value_or_param [.inl 2, .inr "N", .inl 4]).trans (by decide),
    (print_value_or_param []).trans (by decide)⟩

/-- Claim C20: every descriptor is rendered, without any failure, as the entries joined by
commas between braces, where an entry that holds neither a value nor a parameter contributes
the empty text and still takes its position; so the text of a descriptor of `n` entries has
at least `n - 1` commas, and `[value=2, <unset>, value=4]` renders as `{2,,4}`. -/
theorem print_unset_entry (p : TensorShapeProto) :
    p.print = "\x7b" ++ ",".intercalate (p.dim.map fun d =>
        if d.has_dim_value then std.to_string d.dim_value
        else if d.has_dim_param then d.dim_param else "") ++ "\x7d" ∧
      p.dim.length - 1 ≤ p.print.data.count ',' ∧
      (TensorShapeProto.mk [.value 2, .notSet, .value 4]).print = "\x7b2,,4\x7d" := by
  refine ⟨print_eq p, ?_, by decide⟩
  rw [print_eq, String.data_append, String.data_append, intercalate_data]
  cases hd : p.dim with
  | nil => simp
  | cons d dims =>
    rw [List.map_cons, List.map_cons, list_intercalate_cons]
    have h := count_le_separated ',' (List.map String.data (List.map (fun d =>
        if d.has_dim_value then std.to_string d.dim_value
        else if d.has_dim_param then d.dim_param else "") dims))
    simp only [List.length_map] at h
    simp only [List.count_append, List.length_cons, Nat.add_sub_cancel]
    omega

end TensorShapeProto

end onnxruntime
